import Mathlib

/-!
Shallow embedding of `src/lite-element.ts` (the "Lite" fragment-controller
library). Mutable state is passed explicitly:

* `LitHost` models the owning Lit host; the only interaction the library has
  with it that matters here is `requestUpdate()`, modelled as a counter of
  issued re-render requests.
* `ReactiveProperty` models the class of the same name (a value cell whose
  `set` writes the value and calls `host.requestUpdate()` unconditionally).
* `FieldState` models the hidden `this[internalKey]` slot that the accessor
  pair installed by `reactive(target, propertyKey)` reads and writes;
  `reactiveGet` / `reactiveSet` are the getter and setter bodies.
* `FieldRepr` / `LiteElementState` model a `LiteElement` instance's declared
  reactive fields: a field is a plain data property until `reactive` replaces
  it by the accessor pair; `initReactiveProperties` is the flag-guarded
  installation loop.
* `RegistryState` models the module-level `liteElementsMap` (marker name →
  constructor) and `liteElementsInstancesMap` (DOM element → instance); `lite`
  is the registration loop, `updateContent` the discovery pass, and
  `processElement` the body of its `forEach`.  `Map` / `WeakMap` are modelled
  as association lists with `Map.set` update-or-append semantics (keys are
  unique in all reachable states; weakness of the `WeakMap` is a
  memory-management concern with no bearing on lookup semantics).  Constructor
  functions are identified by numeric ids, DOM nodes by numeric ids (node
  identity), and the `new LiteElementHost(...)` commit performed for every
  discovered element is logged in `commits` as an `(instanceId, elementId)`
  pair.
* `JSFun` / `JSInstance` model just enough of JavaScript method lookup to
  state the auto-binding performed in `LiteElement`'s constructor: an instance
  carries own function-valued properties and a prototype chain (a list of
  levels, each a set of named functions); `autoBindMethods` is the constructor
  loop `Object.getOwnPropertyNames(Object.getPrototypeOf(this)).filter(...)`
  followed by `this[m] = this[m].bind(this)`, and `callAs` gives the effective
  `this` when a function value is invoked with a given call-site context
  (`none` = extracted and called as a bare callback).
-/

namespace Lite

/-- Association-list lookup with `Map.get` semantics (first entry with the
key; in all states built here keys are unique). -/
def assocGet {α β : Type} [DecidableEq α] : List (α × β) → α → Option β
  | [], _ => none
  | p :: t, k => if p.1 = k then some p.2 else assocGet t k

/-- Association-list update with `Map.set` semantics: overwrite the entry for
the key if present, otherwise append. -/
def assocSet {α β : Type} [DecidableEq α] : List (α × β) → α → β → List (α × β)
  | [], k, v => [(k, v)]
  | p :: t, k, v => if p.1 = k then (k, v) :: t else p :: assocSet t k v

/-! ### The reactive-property primitive -/

/-- The owning Lit host, reduced to the effect the library observes:
`requestUpdate()` calls are counted. -/
structure LitHost where
  updateRequests : Nat
  deriving DecidableEq

/-- `host.requestUpdate()`. -/
def LitHost.requestUpdate (h : LitHost) : LitHost :=
  { updateRequests := h.updateRequests + 1 }

/-- `class ReactiveProperty<T>`: a mutable cell bound to a host.  The host
reference is passed explicitly to `set` instead of being stored, so that the
host's state can be threaded. -/
structure ReactiveProperty (T : Type) where
  value : T
  deriving DecidableEq

/-- `ReactiveProperty.get(): T { return this.value }`. -/
def ReactiveProperty.get {T : Type} (p : ReactiveProperty T) : T :=
  p.value

/-- `ReactiveProperty.set(newValue)`: store the value, then
`this.host.requestUpdate()` — unconditionally, with no equality check. -/
def ReactiveProperty.set {T : Type} (_p : ReactiveProperty T) (host : LitHost)
    (newValue : T) : ReactiveProperty T × LitHost :=
  ({ value := newValue }, host.requestUpdate)

/-- The hidden `this[internalKey]` slot behind an installed reactive field:
`none` while the slot is still `undefined`, `some p` once a
`ReactiveProperty` has been created. -/
structure FieldState (T : Type) where
  internal : Option (ReactiveProperty T)
  deriving DecidableEq

/-- The getter installed by `reactive`: if the internal slot is `undefined`,
create a `ReactiveProperty` seeded with the captured `originalValue`; return
`this[internalKey]?.get()`. -/
def reactiveGet {T : Type} (originalValue : T) (s : FieldState T) :
    T × FieldState T :=
  match s.internal with
  | none =>
      let p : ReactiveProperty T := { value := originalValue }
      (p.get, { internal := some p })
  | some p => (p.get, s)

/-- The setter installed by `reactive`: if the internal slot is `undefined`,
create a `ReactiveProperty` seeded with the written value (this path does NOT
call `requestUpdate`); otherwise delegate to `ReactiveProperty.set`. -/
def reactiveSet {T : Type} (s : FieldState T) (host : LitHost) (value : T) :
    FieldState T × LitHost :=
  match s.internal with
  | none => ({ internal := some { value := value } }, host)
  | some p =>
      let (p2, h2) := p.set host value
      ({ internal := some p2 }, h2)

/-! ### LiteElement reactive-field installation -/

/-- One declared reactive field of a `LiteElement` instance: a plain data
property holding its construction-time value until `reactive` replaces it by
the accessor pair (which captures the then-current value as `originalValue`
and owns a `FieldState` slot). -/
inductive FieldRepr (T : Type) where
  | plain (v : T)
  | accessor (originalValue : T) (state : FieldState T)
  deriving DecidableEq

/-- Reading a field: a plain data property just yields its value; an accessor
field runs the installed getter. -/
def FieldRepr.read {T : Type} : FieldRepr T → T × FieldRepr T
  | .plain v => (v, .plain v)
  | .accessor orig st =>
      let (v, st2) := reactiveGet orig st
      (v, .accessor orig st2)

/-- Writing a field: a plain data property is overwritten silently (no
`requestUpdate` — the accessor pair is not installed yet); an accessor field
runs the installed setter. -/
def FieldRepr.write {T : Type} (r : FieldRepr T) (host : LitHost) (v : T) :
    FieldRepr T × LitHost :=
  match r with
  | .plain _ => (.plain v, host)
  | .accessor orig st =>
      let (st2, h2) := reactiveSet st host v
      (.accessor orig st2, h2)

/-- `reactive(target, propertyKey)` applied to one field: capture
`originalValue = target[propertyKey]` (for an already-installed accessor this
goes through the getter, which may create the slot) and install the accessor
pair over the same internal key. -/
def reactiveInstall {T : Type} : FieldRepr T → FieldRepr T
  | .plain v => .accessor v { internal := none }
  | .accessor orig st =>
      let (v, st2) := reactiveGet orig st
      .accessor v st2

/-- A `LiteElement` instance reduced to what `initReactiveProperties`
touches: the guard flag and the declared fields (name → representation). -/
structure LiteElementState (T : Type) where
  reactivePropertiesInitialized : Bool
  fields : List (String × FieldRepr T)
  deriving DecidableEq

/-- One iteration of the installation loop: `reactive(this, p)` replaces the
field named `p` by its accessor form, leaving other fields untouched. -/
def installProperty {T : Type} (fs : List (String × FieldRepr T)) (p : String) :
    List (String × FieldRepr T) :=
  fs.map (fun q => if q.1 = p then (q.1, reactiveInstall q.2) else q)

/-- `initReactiveProperties()`: if the flag is unset, set it and run
`reactive(this, property)` for each name in the static `properties` list. -/
def initReactiveProperties {T : Type} (c : LiteElementState T)
    (props : List String) : LiteElementState T :=
  if c.reactivePropertiesInitialized then c
  else
    { reactivePropertiesInitialized := true
      fields := props.foldl installProperty c.fields }

/-- Field lookup on an instance (property access by name). -/
def findField {T : Type} (c : LiteElementState T) (name : String) :
    Option (FieldRepr T) :=
  assocGet c.fields name

/-! ### Registry and discovery -/

/-- A constructed `LiteElement` as the registry sees it: which registered
constructor made it, which host and element it was constructed with, and a
unique allocation number (`instanceId`) standing for reference identity. -/
structure LiteInstance where
  ctorId : Nat
  hostId : Nat
  elementId : Nat
  instanceId : Nat
  deriving DecidableEq

/-- A DOM element as discovery sees it: its node identity, whether it is an
`HTMLElement`, and the value of its `lite` attribute (`none` if absent). -/
structure DOMElement where
  id : Nat
  isHTMLElement : Bool
  liteAttr : Option String
  deriving DecidableEq

/-- Module-level registry state plus the log of commits performed by
`new LiteElementHost(instance, element)` (each logged as
`(instanceId, elementId)`). -/
structure RegistryState where
  liteElementsMap : List (String × Nat)
  liteElementsInstancesMap : List (Nat × LiteInstance)
  nextInstanceId : Nat
  commits : List (Nat × Nat)
  deriving DecidableEq

/-- The registration loop of `lite(Base, elements)`:
`elements.forEach(([name, ctor]) => liteElementsMap.set(name, ctor))`. -/
def lite (st : RegistryState) (elements : List (String × Nat)) :
    RegistryState :=
  { st with
      liteElementsMap :=
        elements.foldl (fun m p => assocSet m p.1 p.2) st.liteElementsMap }

/-- The body of the `forEach` in `updateContent`, for one queried element:
check `instanceof HTMLElement`; read the `lite` attribute; skip a falsy
(empty) name; look the name up in `liteElementsMap` (skip if unregistered);
reuse the instance from `liteElementsInstancesMap` or construct and record a
new one; finally `new LiteElementHost(instance, element)` commits the
instance's render output into the element (logged). -/
def processElement (hostId : Nat) (st : RegistryState) (e : DOMElement) :
    RegistryState :=
  if e.isHTMLElement then
    match e.liteAttr with
    | some liteElementName =>
        if liteElementName = "" then st
        else
          match assocGet st.liteElementsMap liteElementName with
          | some ctorId =>
              match assocGet st.liteElementsInstancesMap e.id with
              | some inst =>
                  { st with commits := st.commits ++ [(inst.instanceId, e.id)] }
              | none =>
                  let inst : LiteInstance :=
                    { ctorId := ctorId, hostId := hostId,
                      elementId := e.id, instanceId := st.nextInstanceId }
                  { st with
                      liteElementsInstancesMap :=
                        assocSet st.liteElementsInstancesMap e.id inst,
                      nextInstanceId := st.nextInstanceId + 1,
                      commits := st.commits ++ [(inst.instanceId, e.id)] }
          | none => st
    | none => st
  else st

/-- `updateContent()`: query the host's shadow root for `[lite]` elements
(those whose `lite` attribute is present) and process each in document
order. -/
def updateContent (hostId : Nat) (st : RegistryState)
    (shadowRoot : List DOMElement) : RegistryState :=
  (shadowRoot.filter (fun e => e.liteAttr.isSome)).foldl
    (processElement hostId) st

/-- Whether discovery would reach the instantiate-and-commit step for an
element, given a registration map: it is an `HTMLElement`, carries a
non-empty `lite` attribute, and the name is registered. -/
def discoveredB (reg : List (String × Nat)) (e : DOMElement) : Bool :=
  e.isHTMLElement &&
    (match e.liteAttr with
     | some name => decide (¬ name = "") && (assocGet reg name).isSome
     | none => false)

/-- The commit (if any) that one discovery step performs for an element, as
a function of the registration map and the instance map only. -/
def elemCommit (reg : List (String × Nat))
    (instMap : List (Nat × LiteInstance)) (e : DOMElement) :
    List (Nat × Nat) :=
  if e.isHTMLElement then
    match e.liteAttr with
    | some name =>
        if name = "" then []
        else
          match assocGet reg name with
          | some _ =>
              match assocGet instMap e.id with
              | some inst => [(inst.instanceId, e.id)]
              | none => []
          | none => []
    | none => []
  else []

/-- The commits a whole discovery pass performs when every element it
processes already has its instance recorded in `instMap`. -/
def passCommits (reg : List (String × Nat))
    (instMap : List (Nat × LiteInstance)) : List DOMElement → List (Nat × Nat)
  | [] => []
  | e :: t => elemCommit reg instMap e ++ passCommits reg instMap t

/-! ### JavaScript method lookup and the constructor's auto-binding -/

/-- A JavaScript function value, reduced to its behaviour identity (`code`)
and whether `bind` has fixed its `this` (`boundTo`). -/
structure JSFun where
  code : Nat
  boundTo : Option Nat
  deriving DecidableEq

/-- `f.bind(x)`: a bound function's `this` cannot be re-bound, an unbound
one's becomes `x`. -/
def JSFun.bindTo (f : JSFun) (thisId : Nat) : JSFun :=
  { code := f.code, boundTo := some (f.boundTo.getD thisId) }

/-- Effective `this` when invoking `f` with call-site context `callCtx`
(`none` models being called as a bare, extracted callback). -/
def callAs (f : JSFun) (callCtx : Option Nat) : Option Nat :=
  match f.boundTo with
  | some t => some t
  | none => callCtx

/-- An object at `LiteElement` construction time: its identity, its own
function-valued properties, and its prototype chain (the head is
`Object.getPrototypeOf(this)`). -/
structure JSInstance where
  selfId : Nat
  own : List (String × JSFun)
  protoChain : List (List (String × JSFun))
  deriving DecidableEq

/-- Property lookup along the prototype chain. -/
def lookupChain : List (List (String × JSFun)) → String → Option JSFun
  | [], _ => none
  | level :: rest, name =>
      match assocGet level name with
      | some f => some f
      | none => lookupChain rest name

/-- Full property lookup: own properties first, then the prototype chain. -/
def lookupMethod (inst : JSInstance) (name : String) : Option JSFun :=
  match assocGet inst.own name with
  | some f => some f
  | none => lookupChain inst.protoChain name

/-- One iteration of the constructor's binding loop:
`this[methodName] = this[methodName].bind(this)`. -/
def bindStep (inst : JSInstance) (name : String) : JSInstance :=
  match lookupMethod inst name with
  | some f =>
      { inst with own := assocSet inst.own name (f.bindTo inst.selfId) }
  | none => inst

/-- The auto-binding performed in `LiteElement`'s constructor: take the own
property names of `Object.getPrototypeOf(this)` (the immediate prototype
only), keep those for which `typeof this[prop] === 'function'`, and rebind
each onto the instance. -/
def autoBindMethods (inst : JSInstance) : JSInstance :=
  let methodNames :=
    ((inst.protoChain.headD []).map (fun q => q.1)).filter
      (fun n => (lookupMethod inst n).isSome)
  methodNames.foldl bindStep inst

/-! ### Association-list lemmas -/

theorem assocGet_set_self {α β : Type} [DecidableEq α] (m : List (α × β))
    (k : α) (v : β) : assocGet (assocSet m k v) k = some v := by
  induction m with
  | nil => simp [assocGet, assocSet]
  | cons p t ih =>
      by_cases hp : p.1 = k
      · simp [assocSet, hp, assocGet]
      · simp [assocSet, hp, assocGet, ih]

theorem assocGet_set_ne {α β : Type} [DecidableEq α] (m : List (α × β))
    (k k' : α) (v : β) (h : k' ≠ k) :
    assocGet (assocSet m k v) k' = assocGet m k' := by
  induction m with
  | nil => simp [assocGet, assocSet, Ne.symm h]
  | cons p t ih =>
      by_cases hp : p.1 = k
      · simp [assocSet, hp, assocGet, Ne.symm h, ih]
      · by_cases hp' : p.1 = k'
        · simp [assocSet, hp, assocGet, hp', h]
        · simp [assocSet, hp, assocGet, hp', ih]

theorem assocGet_mem {α β : Type} [DecidableEq α] {m : List (α × β)}
    {k : α} {v : β} (h : assocGet m k = some v) : (k, v) ∈ m := by
  induction m with
  | nil => simp [assocGet] at h
  | cons p t ih =>
      by_cases hp : p.1 = k
      · simp only [assocGet, hp, if_pos] at h
        have hv := Option.some.inj h
        rw [← hp, ← hv]
        exact List.mem_cons_self _ _
      · simp only [assocGet, hp, if_neg, not_false_iff] at h
        exact List.mem_cons_of_mem _ (ih h)

/-! ### Reactive-field installation lemmas -/

theorem assocGet_installProperty_ne {T : Type} (fs : List (String × FieldRepr T))
    (p F : String) (h : p ≠ F) :
    assocGet (installProperty fs p) F = assocGet fs F := by
  induction fs with
  | nil => rfl
  | cons q t ih =>
      simp only [installProperty, List.map_cons] at ih ⊢
      by_cases hq : q.1 = p
      · rw [if_pos hq]
        by_cases hqF : q.1 = F
        · exact absurd (hq.symm.trans hqF) h
        · simp only [assocGet, hqF, if_neg, not_false_iff]
          exact ih
      · rw [if_neg hq]
        by_cases hqF : q.1 = F
        · simp [assocGet, hqF]
        · simp only [assocGet, hqF, if_neg, not_false_iff]
          exact ih

theorem assocGet_installProperty_self {T : Type}
    (fs : List (String × FieldRepr T)) (F : String) :
    assocGet (installProperty fs F) F = (assocGet fs F).map reactiveInstall := by
  induction fs with
  | nil => rfl
  | cons q t ih =>
      simp only [installProperty, List.map_cons] at ih ⊢
      by_cases hq : q.1 = F
      · rw [if_pos hq]
        simp [assocGet, hq]
      · rw [if_neg hq]
        simp only [assocGet, hq, if_neg, not_false_iff]
        exact ih

theorem assocGet_foldl_installProperty_not_mem {T : Type} (l : List String)
    (fs : List (String × FieldRepr T)) (F : String) (h : F ∉ l) :
    assocGet (l.foldl installProperty fs) F = assocGet fs F := by
  induction l generalizing fs with
  | nil => rfl
  | cons p t ih =>
      have hp : p ≠ F := fun hpF => h (hpF ▸ List.mem_cons_self p t)
      have ht : F ∉ t := fun hF => h (List.mem_cons_of_mem _ hF)
      simp only [List.foldl_cons]
      rw [ih _ ht, assocGet_installProperty_ne _ _ _ hp]

theorem assocGet_initReactiveProperties {T : Type} (c : LiteElementState T)
    (props : List String) (F : String) (r : FieldRepr T)
    (hflag : c.reactivePropertiesInitialized = false)
    (hfind : assocGet c.fields F = some r)
    (hmem : F ∈ props) (hnodup : props.Nodup) :
    assocGet (initReactiveProperties c props).fields F
      = some (reactiveInstall r) := by
  obtain ⟨l1, l2, rfl⟩ := List.append_of_mem hmem
  obtain ⟨-, hn2, hdisj⟩ := List.nodup_append.mp hnodup
  have hF1 : F ∉ l1 := fun hF => hdisj hF (List.mem_cons_self F l2)
  have hF2 : F ∉ l2 := (List.nodup_cons.mp hn2).1
  simp only [initReactiveProperties, hflag, Bool.false_eq_true, if_false,
    List.foldl_append, List.foldl_cons]
  rw [assocGet_foldl_installProperty_not_mem _ _ _ hF2,
    assocGet_installProperty_self,
    assocGet_foldl_installProperty_not_mem _ _ _ hF1, hfind]
  rfl

/-! ### Discovery-pass lemmas -/

theorem processElement_spec (hid : Nat) (st : RegistryState) (e : DOMElement) :
    (discoveredB st.liteElementsMap e = false ∧ processElement hid st e = st) ∨
    (discoveredB st.liteElementsMap e = true ∧
      ∃ i, assocGet st.liteElementsInstancesMap e.id = some i ∧
        processElement hid st e
          = { st with commits := st.commits ++ [(i.instanceId, e.id)] }) ∨
    (discoveredB st.liteElementsMap e = true ∧
      ∃ n c, e.liteAttr = some n ∧
        assocGet st.liteElementsMap n = some c ∧
        assocGet st.liteElementsInstancesMap e.id = none ∧
        processElement hid st e
          = { st with
                liteElementsInstancesMap :=
                  assocSet st.liteElementsInstancesMap e.id
                    ⟨c, hid, e.id, st.nextInstanceId⟩,
                nextInstanceId := st.nextInstanceId + 1,
                commits := st.commits ++ [(st.nextInstanceId, e.id)] }) := by
  by_cases hh : e.isHTMLElement = true
  · cases hattr : e.liteAttr with
    | none =>
        exact Or.inl ⟨by simp [discoveredB, hattr],
          by simp [processElement, hh, hattr]⟩
    | some n =>
        by_cases hn : n = ""
        · subst hn
          exact Or.inl ⟨by simp [discoveredB, hattr],
            by simp [processElement, hh, hattr]⟩
        · cases hreg : assocGet st.liteElementsMap n with
          | none =>
              exact Or.inl ⟨by simp [discoveredB, hh, hattr, hn, hreg],
                by simp [processElement, hh, hattr, hn, hreg]⟩
          | some c =>
              cases hinst : assocGet st.liteElementsInstancesMap e.id with
              | some i =>
                  exact Or.inr (Or.inl
                    ⟨by simp [discoveredB, hh, hattr, hn, hreg],
                      i, rfl,
                      by simp [processElement, hh, hattr, hn, hreg, hinst]⟩)
              | none =>
                  exact Or.inr (Or.inr
                    ⟨by simp [discoveredB, hh, hattr, hn, hreg],
                      n, c, rfl, hreg, rfl,
                      by simp [processElement, hh, hattr, hn, hreg, hinst]⟩)
  · have hh' : e.isHTMLElement = false := Bool.not_eq_true _ ▸ hh
    exact Or.inl ⟨by simp [discoveredB, hh'], by simp [processElement, hh']⟩

theorem elemCommit_of_not_discovered (reg : List (String × Nat))
    (instMap : List (Nat × LiteInstance)) (e : DOMElement)
    (hd : discoveredB reg e = false) : elemCommit reg instMap e = [] := by
  by_cases hh : e.isHTMLElement = true
  · cases hattr : e.liteAttr with
    | none => simp [elemCommit, hh, hattr]
    | some n =>
        by_cases hn : n = ""
        · simp [elemCommit, hh, hattr, hn]
        · cases hreg : assocGet reg n with
          | none => simp [elemCommit, hh, hattr, hn, hreg]
          | some c =>
              exfalso
              simp [discoveredB, hh, hattr, hn, hreg] at hd
  · have hh' : e.isHTMLElement = false := Bool.not_eq_true _ ▸ hh
    simp [elemCommit, hh']

theorem elemCommit_of_discovered (reg : List (String × Nat))
    (instMap : List (Nat × LiteInstance)) (e : DOMElement) (i : LiteInstance)
    (hd : discoveredB reg e = true)
    (hi : assocGet instMap e.id = some i) :
    elemCommit reg instMap e = [(i.instanceId, e.id)] := by
  have hh : e.isHTMLElement = true := by
    by_contra hcon
    have hh' : e.isHTMLElement = false := Bool.not_eq_true _ ▸ hcon
    simp [discoveredB, hh'] at hd
  cases hattr : e.liteAttr with
  | none => simp [discoveredB, hh, hattr] at hd
  | some n =>
      by_cases hn : n = ""
      · subst hn
        simp [discoveredB, hh, hattr] at hd
      · cases hreg : assocGet reg n with
        | none => simp [discoveredB, hh, hattr, hn, hreg] at hd
        | some c => simp [elemCommit, hh, hattr, hn, hreg, hi]

theorem processElement_liteElementsMap (hid : Nat) (st : RegistryState)
    (e : DOMElement) :
    (processElement hid st e).liteElementsMap = st.liteElementsMap := by
  rcases processElement_spec hid st e with ⟨-, heq⟩ | ⟨-, i, -, heq⟩ |
    ⟨-, n, c, -, -, -, heq⟩ <;> rw [heq]

theorem processElement_preserves_inst (hid : Nat) (st : RegistryState)
    (e : DOMElement) (k : Nat) (i : LiteInstance)
    (hk : assocGet st.liteElementsInstancesMap k = some i) :
    assocGet (processElement hid st e).liteElementsInstancesMap k = some i := by
  rcases processElement_spec hid st e with ⟨-, heq⟩ | ⟨-, j, -, heq⟩ |
    ⟨-, n, c, -, -, hnone, heq⟩ <;> rw [heq]
  · exact hk
  · exact hk
  · dsimp only
    have hne : k ≠ e.id := by
      intro hke
      rw [hke, hnone] at hk
      cases hk
    rw [assocGet_set_ne _ _ _ _ hne]
    exact hk

theorem processElement_discovered_isSome (hid : Nat) (st : RegistryState)
    (e : DOMElement) (hd : discoveredB st.liteElementsMap e = true) :
    (assocGet (processElement hid st e).liteElementsInstancesMap e.id).isSome
      = true := by
  rcases processElement_spec hid st e with ⟨hfalse, -⟩ | ⟨-, i, hi, heq⟩ |
    ⟨-, n, c, -, -, hnone, heq⟩
  · rw [hd] at hfalse
    cases hfalse
  · rw [heq]
    dsimp only
    rw [hi]
    rfl
  · rw [heq]
    dsimp only
    rw [assocGet_set_self]
    rfl

theorem processElement_new_entry (hid : Nat) (st : RegistryState)
    (e : DOMElement) (k : Nat) (j : LiteInstance)
    (hnone : assocGet st.liteElementsInstancesMap k = none)
    (hpost : assocGet (processElement hid st e).liteElementsInstancesMap k
      = some j) :
    j.elementId = k ∧ j.hostId = hid := by
  rcases processElement_spec hid st e with ⟨-, heq⟩ | ⟨-, i, -, heq⟩ |
    ⟨-, n, c, -, -, hn0, heq⟩ <;> rw [heq] at hpost
  · rw [hnone] at hpost
    cases hpost
  · dsimp only at hpost
    rw [hnone] at hpost
    cases hpost
  · dsimp only at hpost
    by_cases hke : k = e.id
    · subst hke
      rw [assocGet_set_self] at hpost
      obtain rfl := Option.some.inj hpost
      exact ⟨rfl, rfl⟩
    · rw [assocGet_set_ne _ _ _ _ hke, hnone] at hpost
      cases hpost

theorem processElement_commits (hid : Nat) (st : RegistryState)
    (e : DOMElement) :
    (processElement hid st e).commits
      = st.commits ++ elemCommit st.liteElementsMap
          (processElement hid st e).liteElementsInstancesMap e := by
  rcases processElement_spec hid st e with ⟨hd, heq⟩ | ⟨hd, i, hi, heq⟩ |
    ⟨hd, n, c, hattr, hreg, hnone, heq⟩ <;> rw [heq]
  · rw [elemCommit_of_not_discovered _ _ _ hd, List.append_nil]
  · dsimp only
    rw [elemCommit_of_discovered _ _ _ i hd hi]
  · dsimp only
    rw [elemCommit_of_discovered _ _ _ _ hd (assocGet_set_self _ _ _)]

theorem processElement_saturated (hid : Nat) (st : RegistryState)
    (e : DOMElement)
    (hs : discoveredB st.liteElementsMap e = true →
      (assocGet st.liteElementsInstancesMap e.id).isSome = true) :
    processElement hid st e
      = { st with
            commits := st.commits ++
              elemCommit st.liteElementsMap st.liteElementsInstancesMap e } := by
  rcases processElement_spec hid st e with ⟨hd, heq⟩ | ⟨hd, i, hi, heq⟩ |
    ⟨hd, n, c, hattr, hreg, hnone, heq⟩
  · rw [heq, elemCommit_of_not_discovered _ _ _ hd, List.append_nil]
  · rw [heq, elemCommit_of_discovered _ _ _ i hd hi]
  · exact absurd (hs hd) (by rw [hnone]; simp)

theorem foldl_preserves_inst (hid : Nat) (L : List DOMElement)
    (st : RegistryState) (k : Nat) (i : LiteInstance)
    (hk : assocGet st.liteElementsInstancesMap k = some i) :
    assocGet ((L.foldl (processElement hid) st)).liteElementsInstancesMap k
      = some i := by
  induction L generalizing st with
  | nil => exact hk
  | cons a t ih => exact ih _ (processElement_preserves_inst hid st a k i hk)

theorem foldl_liteElementsMap (hid : Nat) (L : List DOMElement)
    (st : RegistryState) :
    (L.foldl (processElement hid) st).liteElementsMap = st.liteElementsMap := by
  induction L generalizing st with
  | nil => rfl
  | cons a t ih => rw [List.foldl_cons, ih, processElement_liteElementsMap]

theorem foldl_mem_discovered_isSome (hid : Nat) (L : List DOMElement)
    (st : RegistryState) (e : DOMElement)
    (hmem : e ∈ L) (hd : discoveredB st.liteElementsMap e = true) :
    (assocGet (L.foldl (processElement hid) st).liteElementsInstancesMap
      e.id).isSome = true := by
  induction L generalizing st with
  | nil => cases hmem
  | cons a t ih =>
      rcases List.mem_cons.mp hmem with rfl | hmem'
      · obtain ⟨i, hi⟩ := Option.isSome_iff_exists.mp
          (processElement_discovered_isSome hid st e hd)
        rw [List.foldl_cons, foldl_preserves_inst hid t _ e.id i hi]
        rfl
      · rw [List.foldl_cons]
        exact ih _ hmem' (by rw [processElement_liteElementsMap]; exact hd)

theorem foldl_new_entry (hid : Nat) (L : List DOMElement) (st : RegistryState)
    (k : Nat) (j : LiteInstance)
    (hnone : assocGet st.liteElementsInstancesMap k = none)
    (hpost : assocGet (L.foldl (processElement hid) st).liteElementsInstancesMap
      k = some j) :
    j.elementId = k ∧ j.hostId = hid := by
  induction L generalizing st with
  | nil =>
      rw [List.foldl_nil, hnone] at hpost
      cases hpost
  | cons a t ih =>
      rw [List.foldl_cons] at hpost
      cases hmid : assocGet
          (processElement hid st a).liteElementsInstancesMap k with
      | none => exact ih _ hmid hpost
      | some j' =>
          have hj' := processElement_new_entry hid st a k j' hnone hmid
          rw [foldl_preserves_inst hid t _ k j' hmid] at hpost
          obtain rfl := Option.some.inj hpost
          exact hj'

theorem foldl_saturated (hid : Nat) (L : List DOMElement) (st : RegistryState)
    (hs : ∀ e ∈ L, discoveredB st.liteElementsMap e = true →
      (assocGet st.liteElementsInstancesMap e.id).isSome = true) :
    L.foldl (processElement hid) st
      = { st with
            commits := st.commits ++
              passCommits st.liteElementsMap st.liteElementsInstancesMap L } := by
  induction L generalizing st with
  | nil =>
      show st = { st with commits := st.commits ++ [] }
      rw [List.append_nil]
  | cons a t ih =>
      rw [List.foldl_cons,
        processElement_saturated hid st a (hs a (List.mem_cons_self a t)),
        ih { st with
              commits := st.commits ++
                elemCommit st.liteElementsMap st.liteElementsInstancesMap a }
          (fun e he hd => hs e (List.mem_cons_of_mem a he) hd)]
      dsimp only
      rw [List.append_assoc]
      rfl

theorem foldl_commits (hid : Nat) (L : List DOMElement) (st : RegistryState) :
    (L.foldl (processElement hid) st).commits
      = st.commits ++ passCommits st.liteElementsMap
          (L.foldl (processElement hid) st).liteElementsInstancesMap L := by
  induction L generalizing st with
  | nil =>
      show st.commits = st.commits ++ []
      rw [List.append_nil]
  | cons a t ih =>
      rw [List.foldl_cons, ih (processElement hid st a)]
      have hcongr : elemCommit st.liteElementsMap
          (processElement hid st a).liteElementsInstancesMap a
          = elemCommit st.liteElementsMap
              (t.foldl (processElement hid)
                (processElement hid st a)).liteElementsInstancesMap a := by
        cases hd : discoveredB st.liteElementsMap a with
        | false =>
            rw [elemCommit_of_not_discovered _ _ _ hd,
              elemCommit_of_not_discovered _ _ _ hd]
        | true =>
            obtain ⟨i, hi⟩ := Option.isSome_iff_exists.mp
              (processElement_discovered_isSome hid st a hd)
            rw [elemCommit_of_discovered _ _ _ i hd hi,
              elemCommit_of_discovered _ _ _ i hd
                (foldl_preserves_inst hid t _ a.id i hi)]
      rw [processElement_commits hid st a, processElement_liteElementsMap hid st a,
        hcongr, List.append_assoc]
      rfl

/-! ### Auto-binding lemmas -/

theorem bindStep_selfId (j : JSInstance) (m : String) :
    (bindStep j m).selfId = j.selfId := by
  unfold bindStep
  cases lookupMethod j m <;> rfl

theorem bindStep_lookup_ne (j : JSInstance) (m n : String) (h : m ≠ n) :
    lookupMethod (bindStep j m) n = lookupMethod j n := by
  unfold bindStep
  cases hl : lookupMethod j m with
  | none => rfl
  | some f =>
      unfold lookupMethod
      dsimp only
      rw [assocGet_set_ne _ _ _ _ (Ne.symm h)]

theorem bindStep_lookup_self (j : JSInstance) (n : String) (g : JSFun)
    (hl : lookupMethod j n = some g) :
    lookupMethod (bindStep j n) n = some (g.bindTo j.selfId) := by
  unfold bindStep
  rw [hl]
  unfold lookupMethod
  dsimp only
  rw [assocGet_set_self]

theorem foldl_bindStep_bound (l : List String) (j : JSInstance) (n : String)
    (sid cid : Nat) (hsid : j.selfId = sid)
    (hq : ∃ g, lookupMethod j n = some g ∧ g.code = cid ∧
      g.boundTo = some sid) :
    ∃ g, lookupMethod (l.foldl bindStep j) n = some g ∧ g.code = cid ∧
      g.boundTo = some sid := by
  induction l generalizing j with
  | nil => exact hq
  | cons m t ih =>
      apply ih (bindStep j m) (by rw [bindStep_selfId]; exact hsid)
      obtain ⟨g, hg, hc, hb⟩ := hq
      by_cases hmn : m = n
      · subst hmn
        refine ⟨g.bindTo j.selfId, bindStep_lookup_self j m g hg, hc, ?_⟩
        simp [JSFun.bindTo, hb]
      · exact ⟨g, by rw [bindStep_lookup_ne j m n hmn]; exact hg, hc, hb⟩

theorem foldl_bindStep_mem (l : List String) (j : JSInstance) (n : String)
    (sid cid : Nat) (hsid : j.selfId = sid)
    (hp : ∃ g, lookupMethod j n = some g ∧ g.code = cid ∧
      (g.boundTo = none ∨ g.boundTo = some sid))
    (hmem : n ∈ l) :
    ∃ g, lookupMethod (l.foldl bindStep j) n = some g ∧ g.code = cid ∧
      g.boundTo = some sid := by
  induction l generalizing j with
  | nil => cases hmem
  | cons m t ih =>
      obtain ⟨g, hg, hc, hb⟩ := hp
      by_cases hmn : m = n
      · subst hmn
        apply foldl_bindStep_bound t (bindStep j m) m sid cid
          (by rw [bindStep_selfId]; exact hsid)
        refine ⟨g.bindTo j.selfId, bindStep_lookup_self j m g hg, hc, ?_⟩
        rcases hb with hb | hb <;> simp [JSFun.bindTo, hb, hsid]
      · rcases List.mem_cons.mp hmem with rfl | hmem'
        · exact absurd rfl hmn
        · exact ih (bindStep j m) (by rw [bindStep_selfId]; exact hsid)
            ⟨g, by rw [bindStep_lookup_ne j m n hmn]; exact hg, hc, hb⟩ hmem'

/-! ### Claim theorems -/

/-- Claim C1, counterexample: with a freshly installed reactive field (default
0, internal slot still `undefined`), the first assignment (of 5) issues zero
re-render requests, not one; and writing v1 = 5 then v2 = 5 issues exactly one
re-render request in total, not two.  The first write hits the setter's
slot-creation path, which does not call `requestUpdate`. -/
theorem reactive_write_requests_counterexample :
    ((FieldRepr.write (reactiveInstall (FieldRepr.plain (0 : Nat))) ⟨0⟩
        5).2.updateRequests = 0 ∧ (0 : Nat) ≠ 1) ∧
    ((FieldRepr.write
        (FieldRepr.write (reactiveInstall (FieldRepr.plain (0 : Nat))) ⟨0⟩ 5).1
        (FieldRepr.write (reactiveInstall (FieldRepr.plain (0 : Nat))) ⟨0⟩ 5).2
        5).2.updateRequests = 1 ∧ (1 : Nat) ≠ 2) :=
  ⟨⟨rfl, by decide⟩, ⟨rfl, by decide⟩⟩

/-- Claim C1 (amended): once the backing slot of an installed reactive field
exists (i.e. after some earlier access), every assignment issues exactly one
re-render request on the owning host — with no equality short-circuiting —
so writing v1 then v2 from such a state issues exactly two requests even if
v1 = v2, and reading afterwards returns v2.  (`ReactiveProperty.set` itself
always issues exactly one request; only the slot-creating first write of a
never-accessed field issues none.) -/
theorem reactive_write_requests_amended {T : Type} (p : ReactiveProperty T)
    (orig : T) (host : LitHost) (v1 v2 : T) :
    (p.set host v1).2.updateRequests = host.updateRequests + 1 ∧
    (FieldRepr.write (FieldRepr.accessor orig ⟨some p⟩) host
        v1).2.updateRequests = host.updateRequests + 1 ∧
    (FieldRepr.write
        (FieldRepr.write (FieldRepr.accessor orig ⟨some p⟩) host v1).1
        (FieldRepr.write (FieldRepr.accessor orig ⟨some p⟩) host v1).2
        v2).2.updateRequests = host.updateRequests + 2 ∧
    (FieldRepr.read
        (FieldRepr.write
          (FieldRepr.write (FieldRepr.accessor orig ⟨some p⟩) host v1).1
          (FieldRepr.write (FieldRepr.accessor orig ⟨some p⟩) host v1).2
          v2).1).1 = v2 :=
  ⟨rfl, rfl, rfl, rfl⟩

/-- Claim C9: if the first access to an installed reactive field is a write,
that write creates the backing slot seeded with the written value and leaves
the host untouched (no re-render request); in general a write issues one
request exactly when the slot already exists, and zero otherwise. -/
theorem first_write_creates_slot {T : Type} (host : LitHost) (v orig : T)
    (s : FieldState T) :
    FieldRepr.write (reactiveInstall (FieldRepr.plain orig)) host v
      = (FieldRepr.accessor orig ⟨some ⟨v⟩⟩, host) ∧
    reactiveSet (⟨none⟩ : FieldState T) host v = (⟨some ⟨v⟩⟩, host) ∧
    (reactiveSet s host v).2.updateRequests
      = host.updateRequests + (if s.internal.isSome then 1 else 0) := by
  refine ⟨rfl, rfl, ?_⟩
  obtain ⟨internal⟩ := s
  cases internal with
  | none => simp [reactiveSet]
  | some p => simp [reactiveSet, ReactiveProperty.set, LitHost.requestUpdate]

/-- Claim C5: for a controller whose declared reactive field F held v0 at
construction, installation turns F into an accessor whose slot is still
unset (created lazily), and the first read of F returns v0 while creating
the slot seeded with v0. -/
theorem read_before_write_returns_default {T : Type} (c : LiteElementState T)
    (props : List String) (F : String) (v0 : T)
    (hflag : c.reactivePropertiesInitialized = false)
    (hfield : findField c F = some (FieldRepr.plain v0))
    (hmem : F ∈ props) (hnodup : props.Nodup) :
    findField (initReactiveProperties c props) F
      = some (FieldRepr.accessor v0 ⟨none⟩) ∧
    FieldRepr.read (FieldRepr.accessor v0 (⟨none⟩ : FieldState T))
      = (v0, FieldRepr.accessor v0 ⟨some ⟨v0⟩⟩) := by
  refine ⟨?_, rfl⟩
  exact assocGet_initReactiveProperties c props F _ hflag hfield hmem hnodup

/-- Witness for C5 at a concrete controller: one declared field `count`
initialized to 7. -/
theorem read_before_write_returns_default_witness :
    findField (initReactiveProperties
        (⟨false, [("count", FieldRepr.plain (7 : Nat))]⟩ : LiteElementState Nat)
        ["count"]) "count"
      = some (FieldRepr.accessor 7 ⟨none⟩) ∧
    FieldRepr.read (FieldRepr.accessor (7 : Nat) (⟨none⟩ : FieldState Nat))
      = (7, FieldRepr.accessor 7 ⟨some ⟨7⟩⟩) :=
  read_before_write_returns_default _ ["count"] "count" 7 rfl (by decide)
    (by decide) (by decide)

/-- Claim C6: invoking the reactive-field installation step twice on the same
controller instance is the same as invoking it once — the guard flag makes
the second invocation install nothing (no double-wrapping, no value reset). -/
theorem initReactiveProperties_idempotent {T : Type} (c : LiteElementState T)
    (props : List String) :
    initReactiveProperties (initReactiveProperties c props) props
      = initReactiveProperties c props := by
  by_cases hc : c.reactivePropertiesInitialized
  · simp [initReactiveProperties, hc]
  · simp [initReactiveProperties, hc]

/-- Claim C2: for a marker element with a registered name and no recorded
instance, one discovery pass constructs an instance (bound to that element
and host) and records the association, and every chain of subsequent
discovery passes still finds that same, reference-identical instance. -/
theorem marker_instance_created_once_and_reused (hostId : Nat)
    (st : RegistryState) (dom : List DOMElement) (e : DOMElement)
    (name : String)
    (hmem : e ∈ dom) (hhtml : e.isHTMLElement = true)
    (hattr : e.liteAttr = some name) (hname : name ≠ "")
    (hreg : (assocGet st.liteElementsMap name).isSome = true)
    (hfresh : assocGet st.liteElementsInstancesMap e.id = none) :
    ∃ i : LiteInstance,
      assocGet (updateContent hostId st dom).liteElementsInstancesMap e.id
        = some i ∧
      i.elementId = e.id ∧ i.hostId = hostId ∧
      ∀ doms : List (List DOMElement),
        assocGet ((doms.foldl (updateContent hostId)
            (updateContent hostId st dom))).liteElementsInstancesMap e.id
          = some i := by
  have hd : discoveredB st.liteElementsMap e = true := by
    simp [discoveredB, hhtml, hattr, hname, hreg]
  have hmemf : e ∈ dom.filter (fun x => x.liteAttr.isSome) :=
    List.mem_filter.mpr ⟨hmem, by simp [hattr]⟩
  have hsome : (assocGet ((dom.filter (fun x => x.liteAttr.isSome)).foldl
      (processElement hostId) st).liteElementsInstancesMap e.id).isSome
        = true :=
    foldl_mem_discovered_isSome hostId _ st e hmemf hd
  obtain ⟨i, hi⟩ := Option.isSome_iff_exists.mp hsome
  have hpersist : ∀ (doms : List (List DOMElement)) (s : RegistryState),
      assocGet s.liteElementsInstancesMap e.id = some i →
      assocGet ((doms.foldl (updateContent hostId)
        s)).liteElementsInstancesMap e.id = some i := by
    intro doms
    induction doms with
    | nil => exact fun s hs => hs
    | cons d ds ih =>
        intro s hs
        exact ih _ (foldl_preserves_inst hostId _ s e.id i hs)
  obtain ⟨helem, hhost⟩ :=
    foldl_new_entry hostId (dom.filter (fun x => x.liteAttr.isSome)) st e.id i
      hfresh hi
  exact ⟨i, hi, helem, hhost, fun doms => hpersist doms _ hi⟩

/-- Witness for C2 at a concrete state: marker `x` registered, one fresh
marker element with node id 5. -/
theorem marker_instance_created_once_and_reused_witness :
    ∃ i : LiteInstance,
      assocGet (updateContent 0 ⟨[("x", 3)], [], 0, []⟩
          [⟨5, true, some "x"⟩]).liteElementsInstancesMap 5 = some i ∧
      i.elementId = 5 ∧ i.hostId = 0 ∧
      ∀ doms : List (List DOMElement),
        assocGet ((doms.foldl (updateContent 0)
            (updateContent 0 ⟨[("x", 3)], [], 0, []⟩
              [⟨5, true, some "x"⟩]))).liteElementsInstancesMap 5 = some i :=
  marker_instance_created_once_and_reused 0 ⟨[("x", 3)], [], 0, []⟩
    [⟨5, true, some "x"⟩] ⟨5, true, some "x"⟩ "x"
    (List.mem_singleton.mpr rfl) rfl rfl (by decide) (by decide) rfl

/-- Claim C3: a discovery pass appends some batch δ of render commits; running
the same pass again produces a state identical except that the very same
batch δ is appended once more — in particular no additional instantiations
(`nextInstanceId` and the instance map are unchanged) and every existing
controller is re-rendered with its current, unchanged state. -/
theorem updateContent_idempotent (hostId : Nat) (st : RegistryState)
    (dom : List DOMElement) :
    ∃ δ : List (Nat × Nat),
      (updateContent hostId st dom).commits = st.commits ++ δ ∧
      updateContent hostId (updateContent hostId st dom) dom
        = { updateContent hostId st dom with
              commits := (updateContent hostId st dom).commits ++ δ } := by
  refine ⟨passCommits st.liteElementsMap
      (updateContent hostId st dom).liteElementsInstancesMap
      (dom.filter (fun x => x.liteAttr.isSome)), ?_, ?_⟩
  · exact foldl_commits hostId (dom.filter (fun x => x.liteAttr.isSome)) st
  · have hsat : ∀ e ∈ dom.filter (fun x => x.liteAttr.isSome),
        discoveredB (updateContent hostId st dom).liteElementsMap e = true →
        (assocGet (updateContent hostId st
          dom).liteElementsInstancesMap e.id).isSome = true := by
      intro e he hd
      refine foldl_mem_discovered_isSome hostId _ st e he ?_
      rw [← foldl_liteElementsMap hostId
        (dom.filter (fun x => x.liteAttr.isSome)) st]
      exact hd
    have hfix := foldl_saturated hostId (dom.filter (fun x => x.liteAttr.isSome))
      (updateContent hostId st dom) hsat
    have hreg1 : (updateContent hostId st dom).liteElementsMap
        = st.liteElementsMap :=
      foldl_liteElementsMap hostId _ st
    rw [← hreg1]
    exact hfix

/-- Claim C4: an element whose marker name is not registered is skipped
silently by discovery — the pass state is unchanged by it (no instance, no
association, no commit), and discovery over a subtree starting with it
equals discovery over the rest. -/
theorem unregistered_marker_skipped (hostId : Nat) (st : RegistryState)
    (e : DOMElement) (name : String) (ds : List DOMElement)
    (hattr : e.liteAttr = some name)
    (hreg : assocGet st.liteElementsMap name = none) :
    processElement hostId st e = st ∧
    updateContent hostId st (e :: ds) = updateContent hostId st ds := by
  have hpe : processElement hostId st e = st := by
    by_cases hh : e.isHTMLElement = true
    · by_cases hn : name = ""
      · subst hn
        simp [processElement, hh, hattr]
      · simp [processElement, hh, hattr, hn, hreg]
    · have hh' : e.isHTMLElement = false := Bool.not_eq_true _ ▸ hh
      simp [processElement, hh']
  refine ⟨hpe, ?_⟩
  unfold updateContent
  rw [List.filter_cons_of_pos (by simp [hattr]), List.foldl_cons, hpe]

/-- Witness for C4: name `nope` is not registered; the element is skipped. -/
theorem unregistered_marker_skipped_witness :
    processElement 0 ⟨[("a", 1)], [], 0, []⟩ ⟨2, true, some "nope"⟩
      = ⟨[("a", 1)], [], 0, []⟩ ∧
    updateContent 0 ⟨[("a", 1)], [], 0, []⟩ [⟨2, true, some "nope"⟩]
      = updateContent 0 ⟨[("a", 1)], [], 0, []⟩ [] :=
  unregistered_marker_skipped 0 ⟨[("a", 1)], [], 0, []⟩ ⟨2, true, some "nope"⟩
    "nope" [] rfl (by decide)

/-- Claim C10: an element whose `lite` attribute is the empty string is always
skipped by discovery — the falsy-name check fires before the registry lookup,
so this holds for every registry state, including one in which the empty
string is a registered name. -/
theorem empty_marker_skipped (hostId : Nat) (st : RegistryState)
    (e : DOMElement) (ds : List DOMElement)
    (hattr : e.liteAttr = some "") :
    processElement hostId st e = st ∧
    updateContent hostId st (e :: ds) = updateContent hostId st ds := by
  have hpe : processElement hostId st e = st := by
    by_cases hh : e.isHTMLElement = true
    · simp [processElement, hh, hattr]
    · have hh' : e.isHTMLElement = false := Bool.not_eq_true _ ▸ hh
      simp [processElement, hh']
  refine ⟨hpe, ?_⟩
  unfold updateContent
  rw [List.filter_cons_of_pos (by simp [hattr]), List.foldl_cons, hpe]

/-- Witness for C10, with the empty string registered in the registry: the
element is skipped regardless. -/
theorem empty_marker_skipped_witness :
    processElement 0 ⟨[("", 7)], [], 0, []⟩ ⟨1, true, some ""⟩
      = ⟨[("", 7)], [], 0, []⟩ ∧
    updateContent 0 ⟨[("", 7)], [], 0, []⟩ [⟨1, true, some ""⟩]
      = updateContent 0 ⟨[("", 7)], [], 0, []⟩ [] :=
  empty_marker_skipped 0 ⟨[("", 7)], [], 0, []⟩ ⟨1, true, some ""⟩ [] rfl

/-- Claim C7: registering the same marker name twice silently overwrites the
first constructor (no error is raised — registration is total), the lookup
afterwards yields the last constructor, and a subsequent discovery pass over
a fresh marker element instantiates using that most recent constructor. -/
theorem duplicate_registration_last_wins (hostId : Nat) (st : RegistryState)
    (e : DOMElement) (name : String) (c1 c2 : Nat)
    (hhtml : e.isHTMLElement = true) (hattr : e.liteAttr = some name)
    (hname : name ≠ "")
    (hfresh : assocGet st.liteElementsInstancesMap e.id = none) :
    assocGet (lite st [(name, c1), (name, c2)]).liteElementsMap name
      = some c2 ∧
    ∃ i : LiteInstance,
      assocGet (updateContent hostId (lite st [(name, c1), (name, c2)])
          [e]).liteElementsInstancesMap e.id = some i ∧
      i.ctorId = c2 := by
  have hmap : assocGet (lite st [(name, c1), (name, c2)]).liteElementsMap name
      = some c2 := by
    show assocGet (assocSet (assocSet st.liteElementsMap name c1) name c2) name
      = some c2
    exact assocGet_set_self _ _ _
  refine ⟨hmap, ?_⟩
  have hup : updateContent hostId (lite st [(name, c1), (name, c2)]) [e]
      = processElement hostId (lite st [(name, c1), (name, c2)]) e := by
    unfold updateContent
    rw [List.filter_cons_of_pos (by simp [hattr])]
    rfl
  have hd : discoveredB (lite st [(name, c1), (name, c2)]).liteElementsMap e
      = true := by
    simp [discoveredB, hhtml, hattr, hname, hmap]
  rcases processElement_spec hostId (lite st [(name, c1), (name, c2)]) e with
    ⟨hfalse, -⟩ | ⟨-, i, hi, -⟩ | ⟨-, n', c', hattr', hreg', hnone', heq⟩
  · rw [hd] at hfalse
    cases hfalse
  · rw [show (lite st [(name, c1), (name, c2)]).liteElementsInstancesMap
        = st.liteElementsInstancesMap from rfl, hfresh] at hi
    cases hi
  · obtain rfl : name = n' := Option.some.inj (hattr.symm.trans hattr')
    obtain rfl : c' = c2 := Option.some.inj (hreg'.symm.trans hmap)
    rw [hup, heq]
    dsimp only
    exact ⟨_, assocGet_set_self _ _ _, rfl⟩

/-- Witness for C7: `m` registered to constructor 1 then constructor 2; the
fresh element with node id 3 is instantiated with constructor 2. -/
theorem duplicate_registration_last_wins_witness :
    assocGet (lite ⟨[], [], 0, []⟩ [("m", 1), ("m", 2)]).liteElementsMap "m"
      = some 2 ∧
    ∃ i : LiteInstance,
      assocGet (updateContent 9 (lite ⟨[], [], 0, []⟩ [("m", 1), ("m", 2)])
          [⟨3, true, some "m"⟩]).liteElementsInstancesMap 3 = some i ∧
      i.ctorId = 2 :=
  duplicate_registration_last_wins 9 ⟨[], [], 0, []⟩ ⟨3, true, some "m"⟩ "m" 1 2
    rfl rfl (by decide) rfl

/-- Claim C8, counterexample: on an instance whose immediate prototype owns
only `render` while `hostUpdate` lives one level further up the chain (as for
every concrete `LiteElement` subclass, whose inherited base-class methods sit
on the base prototype), the constructor's auto-binding leaves `hostUpdate`
unbound: extracted and called as a bare callback, its execution context is
`none`, not the instance (id 0). -/
theorem autobind_counterexample :
    lookupMethod (autoBindMethods
        ⟨0, [], [[("render", ⟨1, none⟩)], [("hostUpdate", ⟨2, none⟩)]]⟩)
        "hostUpdate" = some ⟨2, none⟩ ∧
    callAs ⟨2, none⟩ none = none ∧
    (none : Option Nat) ≠ some 0 :=
  ⟨by decide, rfl, by decide⟩

/-- Claim C8 (amended): every method that is an own property of the
instance's immediate prototype (the concrete class's own methods; inherited
methods from deeper prototype levels are not covered) is rebound at
construction so that its execution context is permanently the instance,
however it is later invoked. -/
theorem autobind_immediate_prototype_methods (inst : JSInstance) (n : String)
    (f : JSFun)
    (hown : inst.own = [])
    (hf : assocGet (inst.protoChain.headD []) n = some f)
    (hunbound : ∀ q ∈ inst.protoChain.headD [], q.2.boundTo = none) :
    ∃ g : JSFun, lookupMethod (autoBindMethods inst) n = some g ∧
      g.code = f.code ∧ g.boundTo = some inst.selfId ∧
      ∀ ctx : Option Nat, callAs g ctx = some inst.selfId := by
  have hlook : lookupMethod inst n = some f := by
    cases hchain : inst.protoChain with
    | nil =>
        rw [hchain] at hf
        simp [assocGet] at hf
    | cons lvl rest =>
        rw [hchain] at hf
        simp only [List.headD_cons] at hf
        unfold lookupMethod
        rw [hown, hchain]
        show lookupChain (lvl :: rest) n = some f
        unfold lookupChain
        rw [hf]
  have hmemhead : (n, f) ∈ inst.protoChain.headD [] := assocGet_mem hf
  have hmem : n ∈ ((inst.protoChain.headD []).map (fun q => q.1)).filter
      (fun m => (lookupMethod inst m).isSome) := by
    refine List.mem_filter.mpr ⟨?_, ?_⟩
    · exact List.mem_map.mpr ⟨(n, f), hmemhead, rfl⟩
    · rw [hlook]
      rfl
  obtain ⟨g, hg, hc, hb⟩ := foldl_bindStep_mem
    (((inst.protoChain.headD []).map (fun q => q.1)).filter
      (fun m => (lookupMethod inst m).isSome))
    inst n inst.selfId f.code rfl
    ⟨f, hlook, rfl, Or.inl (hunbound (n, f) hmemhead)⟩ hmem
  refine ⟨g, hg, hc, hb, fun ctx => ?_⟩
  simp [callAs, hb]

/-- Witness for C8 (amended) at a concrete instance (id 4) whose immediate
prototype owns `increment`: after construction it is bound to the instance. -/
theorem autobind_immediate_prototype_methods_witness :
    ∃ g : JSFun,
      lookupMethod (autoBindMethods ⟨4, [], [[("increment", ⟨9, none⟩)]]⟩)
        "increment" = some g ∧
      g.code = 9 ∧ g.boundTo = some 4 ∧
      ∀ ctx : Option Nat, callAs g ctx = some 4 :=
  autobind_immediate_prototype_methods ⟨4, [], [[("increment", ⟨9, none⟩)]]⟩
    "increment" ⟨9, none⟩ rfl (by decide) (by decide)

end Lite
